import Mathlib

/-!
# Verification of the httpmonitor aggregation-and-alerting pipeline

A shallow embedding of the Go sources of `tylertreat/httpmonitor`:
the windowed rate averager, the alert state machine, the section-key
derivation, the statistics collector, the snapshot assembler and the
Common Log Format reader loop, together with theorems settling the
specification claims about them.

Conventions of the embedding:
* Go `time.Duration` values (window, quantum) are nanosecond counts,
  modelled as `Nat`; `Duration.Seconds()` is the exact rational
  `d / 1e9`.
* Go `time.Time` values are modelled as `Int` instants; the zero-value
  time is `0`; `t.Before(u)` is `t < u`.
* Go `float64` results are modelled as exact rationals; the NaN produced
  by `0/0` is modelled by `Option ℚ` with `none` for NaN, and the Go
  comparisons `x > y` / `x <= y` (both false on NaN) are `fgt` / `fle`.
* External library calls (regexp matching, `time.Parse`, `strconv`,
  BoomFilters, hdrhistogram) are modelled at their interface only:
  match/parse functions are parameters, and the approximate structures
  are modelled by the (deterministic) history of keys added to them.
-/

namespace HttpMonitor

/-! ## Floating-point comparison model

`none` stands for NaN.  In Go, every ordered comparison with NaN is
false; `fgt a t` is `a > t` and `fle a t` is `a <= t`. -/

/-- Go `avg > threshold` on a possibly-NaN left operand. -/
def fgt (a : Option ℚ) (t : ℚ) : Bool :=
  match a with
  | none => false
  | some x => decide (t < x)

/-- Go `avg <= threshold` on a possibly-NaN left operand. -/
def fle (a : Option ℚ) (t : ℚ) : Bool :=
  match a with
  | none => false
  | some x => decide (x ≤ t)

/-! ## Windowed rate averager (`monitor/monitor.go`, `windowedAverager`)

The bucket slice `[]*uint64` (nil pointers marking "no data") is a
`List (Option Nat)`. -/

/-- State of `windowedAverager`: the bucket ring, the quantum and window
durations in nanoseconds, and the current-bucket cursor. -/
structure windowedAverager where
  buckets : List (Option Nat)
  quantum : Nat
  window  : Nat
  idx     : Nat
deriving DecidableEq, Repr

/-- `newWindowedAverager`: panics (here: `none`) when `window < quantum`;
otherwise allocates `window/quantum + 1` empty buckets (the extra slot is
the in-progress bucket excluded from averaging) with the cursor at 0. -/
def newWindowedAverager (window quantum : Nat) : Option windowedAverager :=
  if window < quantum then
    none
  else
    some { buckets := List.replicate (window / quantum + 1) none
           quantum := quantum
           window  := window
           idx     := 0 }

/-- One iteration of the `quantize` loop body for a single hit received at
time `now`: a hit with timestamp before `now - window` is dropped;
otherwise the current bucket is incremented (a nil bucket is first
allocated as a populated zero). -/
def ingestHit (hit now : Int) (w : windowedAverager) : windowedAverager :=
  if hit < now - (w.window : Int) then
    w
  else
    match w.buckets.getD w.idx none with
    | none   => { w with buckets := w.buckets.set w.idx (some 1) }
    | some v => { w with buckets := w.buckets.set w.idx (some (v + 1)) }

/-- One firing of the `tick` loop body: advance the cursor (wrapping) and
reset the new current bucket to a populated zero. -/
def tickStep (w : windowedAverager) : windowedAverager :=
  let i := (w.idx + 1) % w.buckets.length
  { w with idx := i, buckets := w.buckets.set i (some 0) }

/-- The sum/count accumulation of `average`'s loop over the buckets,
with `i` the position of the head of the remaining list: the current
bucket (`i = idx`) is skipped, a nil bucket contributes nothing, and a
populated bucket adds its value to the sum and 1 to the count. -/
def sumCountAux (idx : Nat) (i : Nat) : List (Option Nat) → Nat × Nat
  | [] => (0, 0)
  | b :: bs =>
    let r := sumCountAux idx (i + 1) bs
    if i = idx then r
    else
      match b with
      | none   => r
      | some v => (r.1 + v, r.2 + 1)

/-- `quantum.Seconds()`: the duration in (exact) seconds. -/
def quantumSeconds (w : windowedAverager) : ℚ :=
  (w.quantum : ℚ) / 1000000000

/-- `average`: `float64(sum) / (float64(count) * quantum.Seconds())` over
the populated non-current buckets; when no such bucket exists this is the
Go division `0/0`, i.e. NaN, modelled as `none`. -/
def average (w : windowedAverager) : Option ℚ :=
  let r := sumCountAux w.idx 0 w.buckets
  if r.2 = 0 then none
  else some ((r.1 : ℚ) / ((r.2 : ℚ) * quantumSeconds w))

/-- `latest`: the count of the most recently completed bucket
(`(idx-1+len) % len`, written with `+ len - 1` which agrees on
`0 ≤ idx < len`), 0 when that bucket is nil. -/
def latest (w : windowedAverager) : Nat :=
  let lastIdx := (w.idx + w.buckets.length - 1) % w.buckets.length
  (w.buckets.getD lastIdx none).getD 0

/-! ## Alert state machine (`monitor/monitor.go`, `Monitor.alert`) -/

/-- The kind of notification line the alert loop prints. -/
inductive AlertKind where
  | high
  | recovered
deriving DecidableEq, Repr

/-- Initial value of the `alerted` flag in `Monitor.alert`. -/
def alertInit : Bool := false

/-- One tick of the alert loop: given the threshold, the current
`alerted` flag and the value of `averager.average()`, return the new
flag and the notification emitted (if any), mirroring the
`if avg > threshold && !alerted … else if avg <= threshold && alerted …`
body. -/
def alertStep (threshold : ℚ) (alerted : Bool) (avg : Option ℚ) :
    Bool × Option AlertKind :=
  if fgt avg threshold && !alerted then
    (true, some .high)
  else if fle avg threshold && alerted then
    (false, some .recovered)
  else
    (alerted, none)

/-- Run the alert loop over a sequence of observed averages, collecting
the notifications emitted, in order. -/
def alertRun (threshold : ℚ) (alerted : Bool) :
    List (Option ℚ) → List AlertKind
  | [] => []
  | avg :: rest =>
    let s := alertStep threshold alerted avg
    match s.2 with
    | none   => alertRun threshold s.1 rest
    | some k => k :: alertRun threshold s.1 rest

/-! ## Section keys (`collector.go`, `sectionFromDocument`)

Go iterates the document with `for i, c := range document` collecting the
indexes of `'/'`, then returns `"/"` when fewer than two were found and
`document[:slashIndexes[1]]` otherwise.  Strings are modelled as
`List Char`; since `'/'` is ASCII, the prefix cut at the second slash has
the same content whether indexes count bytes or characters. -/

/-- The slash-index collection loop of `sectionFromDocument`, with `i`
the index of the head of the remaining document. -/
def slashIndexesAux (i : Nat) : List Char → List Nat
  | [] => []
  | c :: cs =>
    if c = '/' then i :: slashIndexesAux (i + 1) cs
    else slashIndexesAux (i + 1) cs

/-- `sectionFromDocument`: `"/"` when the document holds zero or one
slashes, otherwise the prefix up to (excluding) the second slash. -/
def sectionFromDocument (document : List Char) : List Char :=
  match slashIndexesAux 0 document with
  | [] => ['/']
  | [_] => ['/']
  | _ :: j :: _ => document.take j

/-! ## Status-class histogram (`collector.go`, `statusFreq` and
`processStatus`) -/

/-- `statusFreq` tracks frequencies of HTTP status codes by class. -/
structure statusFreq where
  informational : Nat
  successful    : Nat
  redirection   : Nat
  clientError   : Nat
  serverError   : Nat
deriving DecidableEq, Repr

/-- The all-zero histogram (Go zero value of `statusFreq`). -/
def statusFreq.zero : statusFreq := ⟨0, 0, 0, 0, 0⟩

/-- `processStatus`: classify a status code into exactly one of the five
classes; codes outside 100–599 fall through the switch and are ignored. -/
def processStatus (status : Int) (f : statusFreq) : statusFreq :=
  if 100 ≤ status ∧ status < 200 then
    { f with informational := f.informational + 1 }
  else if 200 ≤ status ∧ status < 300 then
    { f with successful := f.successful + 1 }
  else if 300 ≤ status ∧ status < 400 then
    { f with redirection := f.redirection + 1 }
  else if 400 ≤ status ∧ status < 500 then
    { f with clientError := f.clientError + 1 }
  else if 500 ≤ status ∧ status < 600 then
    { f with serverError := f.serverError + 1 }
  else f

/-- The sum `1xx + 2xx + 3xx + 4xx + 5xx` of the histogram counters. -/
def statusSum (f : statusFreq) : Nat :=
  f.informational + f.successful + f.redirection + f.clientError +
    f.serverError

/-- A status code is in range of the histogram switch (100–599). -/
def statusInRange (status : Int) : Bool :=
  decide (100 ≤ status) && decide (status < 600)

/-! ## Log records and the statistics collector (`collector.go`)

The parsed `log` struct.  Strings are `List Char`, times are `Int`. -/

/-- A parsed Common Log Format entry (`log` in the source). -/
structure LogRec where
  remoteAddr : List Char
  identity   : List Char
  userID     : List Char
  timestamp  : Int
  request    : List Char
  status     : Int
  size       : Int
deriving DecidableEq, Repr

/-- Collector state.  The external approximate structures are modelled
at their interface: `topSections` and `ipHll` hold the (deterministic)
history of keys added to them, `sizeHistCur`/`sizeHistOld` the values
recorded into the current and rotated histogram windows. -/
structure collectorState where
  topSections : List (List Char)
  ipHll       : List (List Char)
  count       : Nat
  sizeHistCur : List Int
  sizeHistOld : List (List Int)
  statusFreq  : statusFreq
  averager    : windowedAverager
deriving DecidableEq, Repr

/-- `newCollector` composed with `newWindowedAverager`: `none` exactly
when the averager construction panics. -/
def newCollector (window quantum : Nat) : Option collectorState :=
  (newWindowedAverager window quantum).map fun av =>
    { topSections := []
      ipHll       := []
      count       := 0
      sizeHistCur := []
      sizeHistOld := []
      statusFreq  := statusFreq.zero
      averager    := av }

/-- `numRequestParts`: the number of capture groups of `requestRegexp`. -/
def numRequestParts : Nat := 4

/-- `processRequest`, with `reqMatch` standing for
`requestRegexp.FindStringSubmatch` (an empty list for no match): a
request line whose submatch list does not have `numRequestParts + 1`
entries is skipped; otherwise the section of its path (group 2) is added
to the top-sections structure. -/
def processRequest (reqMatch : List Char → List (List Char))
    (request : List Char) (st : collectorState) : collectorState :=
  let parts := reqMatch request
  if parts.length ≠ numRequestParts + 1 then st
  else
    { st with
        topSections :=
          st.topSections ++ [sectionFromDocument (parts.getD 2 [])] }

/-- `processIP`: add the remote address to the cardinality estimator. -/
def processIP (ip : List Char) (st : collectorState) : collectorState :=
  { st with ipHll := st.ipHll ++ [ip] }

/-- `processSize`: record the size into the current histogram window and
rotate every 100000th record. -/
def processSize (size : Int) (st : collectorState) : collectorState :=
  let st := { st with sizeHistCur := st.sizeHistCur ++ [size] }
  if st.count % 100000 = 0 then
    { st with sizeHistCur := [], sizeHistOld := st.sizeHistCur :: st.sizeHistOld }
  else st

/-- `process` for one record: increment the total count, forward the
timestamp to the averager (the `hits <- l.timestamp` send, consumed by
`quantize` at time `now`), then update the per-field aggregates. -/
def process (reqMatch : List Char → List (List Char)) (l : LogRec)
    (now : Int) (st : collectorState) : collectorState :=
  let st := { st with count := st.count + 1 }
  let st := { st with averager := ingestHit l.timestamp now st.averager }
  let st := processRequest reqMatch l.request st
  let st := processIP l.remoteAddr st
  let st := processSize l.size st
  processStatus' l.status st
where
  /-- `processStatus` lifted to the collector state. -/
  processStatus' (status : Int) (st : collectorState) : collectorState :=
    { st with statusFreq := processStatus status st.statusFreq }

/-! ## Snapshot assembler (`monitor.go`, `Monitor.summary`)

`summary` stamps a fresh `time.Now()` into the `Timestamp` field and
then copies every aggregate out of the protected state.  The external
queries (`topSections.Elements()`, `ipHll.Count()`,
`Import(sizeHist.Merge().Export())`) are deterministic functions of the
structures' states; at the interface level they are modelled by the
add/record histories themselves. -/

/-- `Summary`: a point-in-time snapshot of the traffic data. -/
structure Summary where
  timestamp     : Int
  topSections   : List (List Char)
  distinctIPs   : Nat
  sizeHist      : List (List Int)
  statusFreq    : statusFreq
  hitsPerSecond : Nat
  avgHits       : Option ℚ
  window        : Nat
deriving DecidableEq, Repr

/-- `topSections.Elements()`: a deterministic function of the add
history (modelled as the history itself). -/
def topkElements (s : List (List Char)) : List (List Char) := s

/-- `ipHll.Count()`: a deterministic function of the add history
(modelled as the number of distinct keys added). -/
def hllCount (s : List (List Char)) : Nat := s.dedup.length

/-- `Import(sizeHist.Merge().Export())`: a deterministic function of the
recorded-value history (modelled as the list of window contents). -/
def mergedHist (cur : List Int) (old : List (List Int)) :
    List (List Int) := cur :: old

/-- `Monitor.summary` evaluated at wall-clock time `now` (the
`time.Now()` of the call): stamps `now` and copies each aggregate. -/
def summary (st : collectorState) (now : Int) : Summary :=
  { timestamp     := now
    topSections   := topkElements st.topSections
    distinctIPs   := hllCount st.ipHll
    sizeHist      := mergedHist st.sizeHistCur st.sizeHistOld
    statusFreq    := st.statusFreq
    hitsPerSecond := latest st.averager
    avgHits       := average st.averager
    window        := st.averager.window }

/-- The non-timestamp payload of a snapshot: every field of `Summary`
other than `timestamp`. -/
def summaryData (s : Summary) :
    List (List Char) × Nat × List (List Int) × statusFreq × Nat ×
      Option ℚ × Nat :=
  (s.topSections, s.distinctIPs, s.sizeHist, s.statusFreq,
    s.hitsPerSecond, s.avgHits, s.window)

/-! ## Common Log Format reader loop (`reader.go`, `clfReader.read`)

`clfNumParts = 7`; `clfRegexp.FindStringSubmatch` is a parameter
`clfMatch` returning the submatch list (empty for no match), and
`time.Parse` / `strconv.Atoi` / `strconv.ParseInt` are parameters
`timeParse` / `atoi` / `parseInt` returning `none` on failure.  Go's
`time.Parse` returns the zero-value time alongside the error, and the
source assigns its result unconditionally (`l.timestamp, _ = …`), so the
timestamp is the parsed value on success and `0` on failure; likewise
status and size default to `0`. -/

/-- `clfNumParts`: the number of components of a Common Log Format
entry. -/
def clfNumParts : Nat := 7

/-- Construction of the `log` record from a successful submatch list
(`parts.getD 0` being the whole match, as in Go). -/
def mkLog (timeParse : List Char → Option Int)
    (atoi parseInt : List Char → Option Int)
    (parts : List (List Char)) : LogRec :=
  { remoteAddr := parts.getD 1 []
    identity   := parts.getD 2 []
    userID     := parts.getD 3 []
    timestamp  := (timeParse (parts.getD 4 [])).getD 0
    request    := parts.getD 5 []
    status     := (atoi (parts.getD 6 [])).getD 0
    size       := (parseInt (parts.getD 7 [])).getD 0 }

/-- What the reader loop encounters on one iteration: a line read from
the file, or an unrecoverable read error from `ReadString`. -/
inductive ReadEvent where
  | line (s : List Char)
  | ioErr
deriving DecidableEq, Repr

/-- Result of running the reader loop: the records delivered to the
channel, tagged with whether the loop fell into the fatal
`os.Exit(1)` path. -/
inductive ReadResult where
  | ok (recs : List LogRec)
  | fatal (recs : List LogRec)
deriving DecidableEq, Repr

/-- The records carried by a `ReadResult`. -/
def ReadResult.recs : ReadResult → List LogRec
  | .ok rs => rs
  | .fatal rs => rs

/-- The `clfReader.read` loop over a finite prefix of events: a read
error is fatal; a line whose submatch list has fewer than
`clfNumParts + 1` entries is skipped with a warning and the loop
continues; any other line yields a record sent to the channel. -/
def readLoop (clfMatch : List Char → List (List Char))
    (timeParse atoi parseInt : List Char → Option Int) :
    List ReadEvent → ReadResult
  | [] => .ok []
  | .ioErr :: _ => .fatal []
  | .line s :: rest =>
    let parts := clfMatch s
    if parts.length < clfNumParts + 1 then
      readLoop clfMatch timeParse atoi parseInt rest
    else
      match readLoop clfMatch timeParse atoi parseInt rest with
      | .ok rs => .ok (mkLog timeParse atoi parseInt parts :: rs)
      | .fatal rs => .fatal (mkLog timeParse atoi parseInt parts :: rs)

/-- A line is structurally well formed for `clfMatch` when its submatch
list has at least `clfNumParts + 1` entries (the whole match plus the
seven groups; the optional eighth group may add one more). -/
def wellFormed (clfMatch : List Char → List (List Char))
    (e : ReadEvent) : Bool :=
  match e with
  | .ioErr => false
  | .line s => decide (clfNumParts + 1 ≤ (clfMatch s).length)

/-! ## General list helpers -/

/-- `getD` at the length of a prefix reads the element just after it. -/
theorem getD_append_length {α : Type} (xs : List α) (y : α) (rest : List α)
    (d : α) : (xs ++ y :: rest).getD xs.length d = y := by
  induction xs with
  | nil => rfl
  | cons x xs ih =>
    show (x :: (xs ++ y :: rest)).getD (xs.length + 1) d = y
    rw [List.getD_cons_succ]
    exact ih

/-- `set` at the length of a prefix replaces the element just after it. -/
theorem set_append_length {α : Type} (xs : List α) (y a : α)
    (rest : List α) : (xs ++ y :: rest).set xs.length a = xs ++ a :: rest := by
  induction xs with
  | nil => rfl
  | cons x xs ih => simp [ih]

/-- Setting a slot to the value it already holds is the identity. -/
theorem set_getD_self :
    ∀ (l : List (Option Nat)) (i : Nat) (c : Nat),
      l.getD i none = some c → l.set i (some c) = l
  | [], i, c, h => by simp at h
  | x :: xs, 0, c, h => by
    simp only [List.getD_cons_zero] at h
    simp [h]
  | x :: xs, i + 1, c, h => by
    simp only [List.getD_cons_succ] at h
    simp [set_getD_self xs i c h]

/-- Reading back a freshly set in-bounds slot. -/
theorem getD_set_self :
    ∀ (l : List (Option Nat)) (i : Nat) (a : Option Nat),
      i < l.length → (l.set i a).getD i none = a
  | [], i, a, h => by simp at h
  | x :: xs, 0, a, _ => rfl
  | x :: xs, i + 1, a, h => by
    simp only [List.length_cons, Nat.add_lt_add_iff_right] at h
    simpa using getD_set_self xs i a h

/-- The lengths of a filter and of its complement add to the length. -/
theorem length_filter_split {α : Type} (p : α → Bool) (l : List α) :
    (l.filter p).length + (l.filter fun a => !p a).length = l.length := by
  induction l with
  | nil => rfl
  | cons x xs ih => cases hp : p x <;> simp [List.filter_cons, hp] <;> omega

/-- Taking a prefix that reaches `n` places past a marker element. -/
theorem take_append_cons {α : Type} (a : List α) (x : α) (b : List α)
    (n : Nat) : (a ++ x :: b).take (a.length + (n + 1)) = a ++ x :: b.take n := by
  induction a with
  | nil => simp
  | cons y ys ih => simpa [Nat.succ_add] using ih

/-! ## Section-key lemmas -/

/-- The slash-collection loop skips over a slash-free prefix, advancing
the index by its length. -/
theorem slashIndexesAux_append (i : Nat) (a rest : List Char)
    (h : '/' ∉ a) :
    slashIndexesAux i (a ++ rest) = slashIndexesAux (i + a.length) rest := by
  induction a generalizing i with
  | nil => simp
  | cons x xs ih =>
    have hx : ¬x = '/' := fun e => h (by simp [e])
    have hxs : '/' ∉ xs := fun m => h (List.mem_cons_of_mem _ m)
    have harith : i + 1 + xs.length = i + (x :: xs).length := by
      simp only [List.length_cons]
      omega
    show slashIndexesAux i (x :: (xs ++ rest)) = _
    simp only [slashIndexesAux, hx, if_false]
    rw [ih (i + 1) hxs, harith]

/-- The slash-collection loop finds one index per slash. -/
theorem slashIndexesAux_length (d : List Char) :
    ∀ i, (slashIndexesAux i d).length = d.count '/' := by
  induction d with
  | nil => intro i; rfl
  | cons x xs ih =>
    intro i
    by_cases hx : x = '/' <;>
      simp [slashIndexesAux, hx, ih, List.count_cons]

/-- C3: for every path, a path holding zero or one `'/'` characters maps
to the section key `"/"`, and a path holding at least two slashes maps to
its prefix up to (excluding) the second slash. -/
theorem C3_section_key (d : List Char) :
    (d.count '/' ≤ 1 → sectionFromDocument d = ['/']) ∧
    (∀ a b c : List Char, d = a ++ '/' :: (b ++ '/' :: c) →
      '/' ∉ a → '/' ∉ b → sectionFromDocument d = a ++ '/' :: b) := by
  constructor
  · intro h
    unfold sectionFromDocument
    rcases hsi : slashIndexesAux 0 d with _ | ⟨x, _ | ⟨y, t⟩⟩
    · rfl
    · rfl
    · exfalso
      have hlen := slashIndexesAux_length d 0
      rw [hsi] at hlen
      simp at hlen
      omega
  · rintro a b c rfl ha hb
    have h1 : slashIndexesAux 0 (a ++ '/' :: (b ++ '/' :: c)) =
        a.length :: (a.length + 1 + b.length) ::
          slashIndexesAux (a.length + 1 + b.length + 1) c := by
      rw [slashIndexesAux_append 0 a _ ha]
      have e1 : slashIndexesAux (0 + a.length) ('/' :: (b ++ '/' :: c)) =
          a.length :: slashIndexesAux (a.length + 1) (b ++ '/' :: c) := by
        simp [slashIndexesAux]
      rw [e1, slashIndexesAux_append (a.length + 1) b _ hb]
      have e2 : slashIndexesAux (a.length + 1 + b.length) ('/' :: c) =
          (a.length + 1 + b.length) ::
            slashIndexesAux (a.length + 1 + b.length + 1) c := by
        simp [slashIndexesAux]
      rw [e2]
    unfold sectionFromDocument
    rw [h1]
    show List.take (a.length + 1 + b.length) (a ++ '/' :: (b ++ '/' :: c)) =
      a ++ '/' :: b
    have h2 : a.length + 1 + b.length = a.length + (b.length + 1) := by omega
    rw [h2, take_append_cons]
    rw [List.take_left]

/-- C3 witness: `/pages/create` maps to `/pages`, and a path with a
single slash maps to `/`. -/
theorem C3_section_key_witness :
    sectionFromDocument ['a', '/', 'b'] = ['/'] ∧
    sectionFromDocument ['/', 'p', '/', 'c'] = ['/', 'p'] :=
  ⟨(C3_section_key ['a', '/', 'b']).1 (by decide),
    (C3_section_key ['/', 'p', '/', 'c']).2 [] ['p'] ['c'] rfl
      (by decide) (by decide)⟩

/-! ## Late-event discard -/

/-- C8: an event whose timestamp is older than `now - window` at
ingestion time is discarded: the averager state (hence every slot
counter) is unchanged, so every subsequent `average()` and `latest()`
result is unaffected. -/
theorem C8_late_events (hit now : Int) (w : windowedAverager)
    (h : hit < now - (w.window : Int)) :
    ingestHit hit now w = w ∧
    (∀ f : windowedAverager → windowedAverager,
      average (f (ingestHit hit now w)) = average (f w)) ∧
    (∀ f : windowedAverager → windowedAverager,
      latest (f (ingestHit hit now w)) = latest (f w)) := by
  have he : ingestHit hit now w = w := by simp [ingestHit, h]
  exact ⟨he, fun f => by rw [he], fun f => by rw [he]⟩

/-- C8 witness: a hit 10 time units in the past of a 2 ns window is
dropped. -/
theorem C8_late_events_witness :
    ingestHit (-10) 0 ⟨[none, none, none], 1, 2, 0⟩ =
      ⟨[none, none, none], 1, 2, 0⟩ ∧
    average (id (ingestHit (-10) 0 ⟨[none, none, none], 1, 2, 0⟩)) =
      average (id ⟨[none, none, none], 1, 2, 0⟩) :=
  ⟨(C8_late_events (-10) 0 _ (by decide)).1,
    (C8_late_events (-10) 0 _ (by decide)).2.1 id⟩

/-! ## Constructor validation -/

/-- C9: constructing a windowed averager with `window < quantum` panics
(modelled `none`), and with `window ≥ quantum` succeeds with a bucket
ring of length `window / quantum + 1`. -/
theorem C9_construction (window quantum : Nat) :
    (window < quantum → newWindowedAverager window quantum = none) ∧
    (quantum ≤ window → ∃ st, newWindowedAverager window quantum = some st ∧
      st.buckets.length = window / quantum + 1) := by
  constructor
  · intro h
    simp [newWindowedAverager, h]
  · intro h
    refine ⟨{ buckets := List.replicate (window / quantum + 1) none,
              quantum := quantum, window := window, idx := 0 }, ?_, ?_⟩
    · simp [newWindowedAverager, Nat.not_lt.mpr h]
    · simp

/-- C9 witness: a 1 ns window with a 2 ns quantum is rejected; a 5 ns
window with a 2 ns quantum yields a ring of `5/2 + 1 = 3` buckets. -/
theorem C9_construction_witness :
    newWindowedAverager 1 2 = none ∧
    ∃ st, newWindowedAverager 5 2 = some st ∧
      st.buckets.length = 5 / 2 + 1 :=
  ⟨(C9_construction 1 2).1 (by decide), (C9_construction 5 2).2 (by decide)⟩

/-! ## Collector histogram invariant -/

/-- Fold of `process` over a sequence of (record, ingestion-time)
inputs. -/
def processAll (reqMatch : List Char → List (List Char))
    (inputs : List (LogRec × Int)) (st : collectorState) : collectorState :=
  inputs.foldl (fun s p => process reqMatch p.1 p.2 s) st

/-- One `process` call increments the total count by exactly one. -/
theorem process_count (reqMatch : List Char → List (List Char))
    (l : LogRec) (now : Int) (st : collectorState) :
    (process reqMatch l now st).count = st.count + 1 := by
  simp only [process, process.processStatus', processRequest, processIP,
    processSize]
  split <;> split <;> rfl

/-- One `process` call updates the histogram through `processStatus` on
the record's status. -/
theorem process_statusFreq (reqMatch : List Char → List (List Char))
    (l : LogRec) (now : Int) (st : collectorState) :
    (process reqMatch l now st).statusFreq =
      processStatus l.status st.statusFreq := by
  simp only [process, process.processStatus', processRequest, processIP,
    processSize]
  split <;> split <;> rfl

/-- `processStatus` adds one to the histogram sum exactly when the
status code lies in 100–599, and nothing otherwise. -/
theorem statusSum_processStatus (s : Int) (f : statusFreq) :
    statusSum (processStatus s f) =
      statusSum f + (if statusInRange s then 1 else 0) := by
  have hiff : statusInRange s = true ↔ (100 ≤ s ∧ s < 600) := by
    simp [statusInRange]
  unfold processStatus
  cases hin : statusInRange s
  · have hn : s < 100 ∨ 600 ≤ s := by
      by_contra hc
      push_neg at hc
      rw [hiff.mpr ⟨hc.1, hc.2⟩] at hin
      exact Bool.noConfusion hin
    rw [if_neg Bool.false_ne_true]
    split_ifs with h1 h2 h3 h4 h5 <;> simp [statusSum] <;> omega
  · rw [if_pos rfl]
    have hy : 100 ≤ s ∧ s < 600 := hiff.mp hin
    split_ifs with h1 h2 h3 h4 h5 <;> simp [statusSum] <;> omega

/-- Invariant of the `process` fold: the count grows by the number of
records, the histogram sum by the number of in-range statuses. -/
theorem processAll_invariant (reqMatch : List Char → List (List Char))
    (inputs : List (LogRec × Int)) :
    ∀ st : collectorState,
      (processAll reqMatch inputs st).count = st.count + inputs.length ∧
      statusSum (processAll reqMatch inputs st).statusFreq =
        statusSum st.statusFreq +
          (inputs.filter fun p => statusInRange p.1.status).length := by
  induction inputs with
  | nil => intro st; simp [processAll]
  | cons p rest ih =>
    intro st
    have hc := process_count reqMatch p.1 p.2 st
    have hf := process_statusFreq reqMatch p.1 p.2 st
    have hrest := ih (process reqMatch p.1 p.2 st)
    constructor
    · show (processAll reqMatch rest (process reqMatch p.1 p.2 st)).count = _
      rw [hrest.1, hc]
      simp
      omega
    · show statusSum (processAll reqMatch rest
          (process reqMatch p.1 p.2 st)).statusFreq = _
      rw [hrest.2, hf, statusSum_processStatus]
      cases hp : statusInRange p.1.status <;>
        simp [List.filter_cons, hp] <;> omega

/-- C4: after any sequence of `process` calls on a fresh collector, the
sum of the five status-class counters equals the total processed record
count minus the number of records whose status update was skipped
(status outside 100–599). -/
theorem C4_histogram_total (reqMatch : List Char → List (List Char))
    (window quantum : Nat) (inputs : List (LogRec × Int))
    (st₀ : collectorState) (h : newCollector window quantum = some st₀) :
    (processAll reqMatch inputs st₀).count = inputs.length ∧
    statusSum (processAll reqMatch inputs st₀).statusFreq =
      (processAll reqMatch inputs st₀).count -
        (inputs.filter fun p => !statusInRange p.1.status).length := by
  have h0 : st₀.count = 0 ∧ st₀.statusFreq = statusFreq.zero := by
    unfold newCollector at h
    cases hav : newWindowedAverager window quantum with
    | none =>
      rw [hav] at h
      exact absurd h (by simp)
    | some av =>
      rw [hav] at h
      simp at h
      subst h
      exact ⟨rfl, rfl⟩
  have hinv := processAll_invariant reqMatch inputs st₀
  have hsplit := length_filter_split
    (fun p : LogRec × Int => statusInRange p.1.status) inputs
  refine ⟨?_, ?_⟩
  · rw [hinv.1, h0.1]
    omega
  · rw [hinv.2, hinv.1, h0.1, h0.2]
    have hz : statusSum statusFreq.zero = 0 := rfl
    rw [hz]
    omega

/-- Concrete fresh collector used by the C4 witness
(`newCollector 2 1`). -/
def collectorC4 : collectorState :=
  { topSections := []
    ipHll       := []
    count       := 0
    sizeHistCur := []
    sizeHistOld := []
    statusFreq  := statusFreq.zero
    averager    := ⟨[none, none, none], 1, 2, 0⟩ }

/-- C4 witness: two records, one with status 200 and one with the
out-of-range status 700, leave count 2 and histogram sum 2 − 1. -/
theorem C4_histogram_total_witness :
    (processAll (fun _ => [])
        [(⟨[], [], [], 0, [], 200, 0⟩, 0), (⟨[], [], [], 0, [], 700, 0⟩, 0)]
        collectorC4).count =
      [((⟨[], [], [], 0, [], 200, 0⟩ : LogRec), (0 : Int)),
        (⟨[], [], [], 0, [], 700, 0⟩, 0)].length ∧
    statusSum (processAll (fun _ => [])
        [(⟨[], [], [], 0, [], 200, 0⟩, 0), (⟨[], [], [], 0, [], 700, 0⟩, 0)]
        collectorC4).statusFreq =
      (processAll (fun _ => [])
        [(⟨[], [], [], 0, [], 200, 0⟩, 0), (⟨[], [], [], 0, [], 700, 0⟩, 0)]
        collectorC4).count -
        ([((⟨[], [], [], 0, [], 200, 0⟩ : LogRec), (0 : Int)),
          (⟨[], [], [], 0, [], 700, 0⟩, 0)].filter
            fun p => !statusInRange p.1.status).length :=
  C4_histogram_total (fun _ => []) 2 1 _ collectorC4 (by decide)

/-! ## Alert state machine lemmas -/

/-- On each tick, the alert loop either stays put emitting nothing,
fires the high-traffic alert from the non-alerted state, or fires the
recovery message from the alerted state. -/
theorem alertStep_cases (t : ℚ) (s : Bool) (avg : Option ℚ) :
    alertStep t s avg = (s, none) ∨
    (s = false ∧ alertStep t s avg = (true, some .high)) ∨
    (s = true ∧ alertStep t s avg = (false, some .recovered)) := by
  cases s <;> unfold alertStep <;>
    rcases h1 : fgt avg t <;> rcases h2 : fle avg t <;> simp

/-- Run invariant: the emitted notifications alternate in kind, and the
first one (if any) is determined by the starting state: `high` from
`Normal`, `recovered` from `Alerting`. -/
theorem alertRun_spec (t : ℚ) :
    ∀ (avgs : List (Option ℚ)) (s : Bool),
      (alertRun t s avgs).Chain' (fun x y => x ≠ y) ∧
      ∀ k, (alertRun t s avgs).head? = some k →
        k = (if s then AlertKind.recovered else AlertKind.high) := by
  intro avgs
  induction avgs with
  | nil => intro s; simp [alertRun]
  | cons avg rest ih =>
    intro s
    rcases alertStep_cases t s avg with h | ⟨hs, h⟩ | ⟨hs, h⟩
    · have hrun : alertRun t s (avg :: rest) = alertRun t s rest := by
        simp only [alertRun]
        rw [h]
      rw [hrun]
      exact ih s
    · subst hs
      have hrun : alertRun t false (avg :: rest) =
          AlertKind.high :: alertRun t true rest := by
        simp only [alertRun]
        rw [h]
      rw [hrun]
      constructor
      · rw [List.chain'_cons']
        refine ⟨?_, (ih true).1⟩
        intro y hy
        have := (ih true).2 y hy
        simp at this
        rw [this]
        exact fun e => AlertKind.noConfusion e
      · intro k hk
        simp at hk
        simp [hk]
    · subst hs
      have hrun : alertRun t true (avg :: rest) =
          AlertKind.recovered :: alertRun t false rest := by
        simp only [alertRun]
        rw [h]
      rw [hrun]
      constructor
      · rw [List.chain'_cons']
        refine ⟨?_, (ih false).1⟩
        intro y hy
        have := (ih false).2 y hy
        simp at this
        rw [this]
        exact fun e => AlertKind.noConfusion e
      · intro k hk
        simp at hk
        simp [hk]

/-- C1: the alert machine starts in Normal (`alerted = false`); from
Normal it fires the high-traffic alert and moves to Alerting exactly
when the average strictly exceeds the threshold; from Alerting it fires
the recovery message and moves to Normal exactly when the average is at
or below the threshold; a NaN average never changes the state; and over
every sequence of ticks the emitted notifications never repeat a kind
twice in a row. -/
theorem C1_alert_state_machine (t a : ℚ) (avgs : List (Option ℚ)) :
    alertInit = false ∧
    (alertStep t false (some a) = (true, some .high) ↔ t < a) ∧
    (a ≤ t → alertStep t false (some a) = (false, none)) ∧
    (alertStep t true (some a) = (false, some .recovered) ↔ a ≤ t) ∧
    (t < a → alertStep t true (some a) = (true, none)) ∧
    (∀ s : Bool, alertStep t s none = (s, none)) ∧
    (alertRun t alertInit avgs).Chain' (fun x y => x ≠ y) := by
  have hTF : alertStep t false (some a) =
      (if t < a then (true, some AlertKind.high) else (false, none)) := by
    unfold alertStep
    by_cases h : t < a
    · simp [fgt, h]
    · simp [fgt, fle, h]
  have hTT : alertStep t true (some a) =
      (if a ≤ t then (false, some AlertKind.recovered) else (true, none)) := by
    unfold alertStep
    by_cases h : a ≤ t
    · simp [fgt, fle, h, not_lt.mpr h]
    · simp [fgt, fle, h, not_le.mp h]
  refine ⟨rfl, ?_, ?_, ?_, ?_, ?_, (alertRun_spec t avgs alertInit).1⟩
  · rw [hTF]
    by_cases h : t < a <;> simp [h]
  · intro h
    rw [hTF, if_neg (not_lt.mpr h)]
  · rw [hTT]
    by_cases h : a ≤ t <;> simp [h]
  · intro h
    rw [hTT, if_neg (not_le.mpr h)]
  · intro s
    cases s <;> simp [alertStep, fgt, fle]

/-- C1 witness: with threshold 1, a Normal-state tick at average 2 fires
the alert, a tick at average 1 does not, and the run over the averages
`[2, 2, 1, 1, 2]` emits alternating notifications. -/
theorem C1_alert_state_machine_witness :
    alertInit = false ∧
    alertStep 1 false (some 2) = (true, some AlertKind.high) ∧
    alertStep 1 false (some 1) = (false, none) ∧
    alertStep 1 true (some 1) = (false, some AlertKind.recovered) ∧
    alertStep 1 true (some 2) = (true, none) ∧
    alertStep 1 false none = (false, none) ∧
    (alertRun 1 alertInit
      [some 2, some 2, some 1, some 1, some 2]).Chain' (fun x y => x ≠ y) :=
  ⟨(C1_alert_state_machine 1 2 []).1,
    (C1_alert_state_machine 1 2 []).2.1.mpr (by norm_num),
    (C1_alert_state_machine 1 1 []).2.2.1 (le_refl 1),
    (C1_alert_state_machine 1 1 []).2.2.2.1.mpr (le_refl 1),
    (C1_alert_state_machine 1 2 []).2.2.2.2.1 (by norm_num),
    (C1_alert_state_machine 1 2 []).2.2.2.2.2.1 false,
    (C1_alert_state_machine 1 2
      [some 2, some 2, some 1, some 1, some 2]).2.2.2.2.2.2⟩

/-! ## Snapshot idempotence (C5) -/

/-- C5 counterexample: on a fresh collector (`newCollector 2 1`), two
successive `summary` calls with no intervening `process` disagree — the
`Timestamp` field is stamped with `time.Now()` at each call. -/
theorem C5_counterexample :
    newCollector 2 1 = some collectorC4 ∧
    summary collectorC4 0 ≠ summary collectorC4 1 := by
  constructor
  · rfl
  · intro h
    have : (summary collectorC4 0).timestamp =
        (summary collectorC4 1).timestamp := by rw [h]
    simp [summary] at this

/-- C5 (amended): two `summary` calls on the same collector state agree
on every field other than `Timestamp` — the snapshot payload is a
deterministic function of the protected state. -/
theorem C5_snapshot_idempotent (st : collectorState) (now₁ now₂ : Int) :
    summaryData (summary st now₁) = summaryData (summary st now₂) := rfl

/-! ## Reader loop error handling (C6, C7) -/

/-- The records the reader loop delivers for a list of line events: one
per structurally well-formed line, none for a malformed line. -/
def parsedRecords (clfMatch : List Char → List (List Char))
    (timeParse atoi parseInt : List Char → Option Int) :
    List ReadEvent → List LogRec
  | [] => []
  | .ioErr :: rest => parsedRecords clfMatch timeParse atoi parseInt rest
  | .line s :: rest =>
    if clfNumParts + 1 ≤ (clfMatch s).length then
      mkLog timeParse atoi parseInt (clfMatch s) ::
        parsedRecords clfMatch timeParse atoi parseInt rest
    else parsedRecords clfMatch timeParse atoi parseInt rest

/-- C6: a malformed line is skipped and the loop continues with the next
line; a well-formed line contributes its record; and a stream free of
read errors never reaches the fatal path — the loop ends in `ok` with
one record per well-formed line. -/
theorem C6_malformed_skip (clfMatch : List Char → List (List Char))
    (timeParse atoi parseInt : List Char → Option Int) :
    (∀ s rest, (clfMatch s).length < clfNumParts + 1 →
      readLoop clfMatch timeParse atoi parseInt (.line s :: rest) =
        readLoop clfMatch timeParse atoi parseInt rest) ∧
    (∀ s rest, clfNumParts + 1 ≤ (clfMatch s).length →
      (readLoop clfMatch timeParse atoi parseInt
          (.line s :: rest)).recs =
        mkLog timeParse atoi parseInt (clfMatch s) ::
          (readLoop clfMatch timeParse atoi parseInt rest).recs) ∧
    (∀ events : List ReadEvent, ReadEvent.ioErr ∉ events →
      readLoop clfMatch timeParse atoi parseInt events =
        .ok (parsedRecords clfMatch timeParse atoi parseInt events)) := by
  refine ⟨?_, ?_, ?_⟩
  · intro s rest h
    simp only [readLoop, if_pos h]
  · intro s rest h
    have hn : ¬(clfMatch s).length < clfNumParts + 1 := by omega
    simp only [readLoop, if_neg hn]
    cases readLoop clfMatch timeParse atoi parseInt rest <;> rfl
  · intro events
    induction events with
    | nil => intro _; rfl
    | cons e rest ih =>
      intro hmem
      have hrest : ReadEvent.ioErr ∉ rest := fun m =>
        hmem (List.mem_cons_of_mem _ m)
      cases e with
      | ioErr => exact absurd (List.mem_cons_self _ _) hmem
      | line s =>
        by_cases h : (clfMatch s).length < clfNumParts + 1
        · have hn : ¬clfNumParts + 1 ≤ (clfMatch s).length := by omega
          simp only [readLoop, if_pos h, parsedRecords, if_neg hn]
          exact ih hrest
        · have hle : clfNumParts + 1 ≤ (clfMatch s).length := by omega
          simp only [readLoop, if_neg h, parsedRecords, if_pos hle]
          rw [ih hrest]

/-- C6 witness: with a match function recognizing only the line `"a"`,
the stream `["a", "b"]` (no read error) yields exactly one record and no
fatal exit, the malformed `"b"` being skipped. -/
theorem C6_malformed_skip_witness :
    readLoop (fun s => if s = ['a'] then List.replicate 8 [] else [])
        (fun _ => none) (fun _ => none) (fun _ => none)
        [ReadEvent.line ['b'], ReadEvent.line ['a']] =
      ReadResult.ok [mkLog (fun _ => none) (fun _ => none) (fun _ => none)
        (List.replicate 8 [])] ∧
    readLoop (fun s => if s = ['a'] then List.replicate 8 [] else [])
        (fun _ => none) (fun _ => none) (fun _ => none)
        [ReadEvent.line ['b'], ReadEvent.line ['a']] =
      ReadResult.ok (parsedRecords
        (fun s => if s = ['a'] then List.replicate 8 [] else [])
        (fun _ => none) (fun _ => none) (fun _ => none)
        [ReadEvent.line ['b'], ReadEvent.line ['a']]) := by
  have h := (C6_malformed_skip
      (fun s => if s = ['a'] then List.replicate 8 [] else [])
      (fun _ => none) (fun _ => none) (fun _ => none)).2.2
      [ReadEvent.line ['b'], ReadEvent.line ['a']] (by decide)
  exact ⟨by rw [h]; rfl, h⟩

/-- C7: a structurally well-formed line always yields a record, whose
timestamp is the parsed time when the bracketed date parses and the
zero-value time when it does not. -/
theorem C7_timestamp_default (clfMatch : List Char → List (List Char))
    (timeParse atoi parseInt : List Char → Option Int)
    (s : List Char) (rest : List ReadEvent) (tv : Int)
    (h : clfNumParts + 1 ≤ (clfMatch s).length) :
    ((readLoop clfMatch timeParse atoi parseInt
        (.line s :: rest)).recs =
      mkLog timeParse atoi parseInt (clfMatch s) ::
        (readLoop clfMatch timeParse atoi parseInt rest).recs) ∧
    (timeParse ((clfMatch s).getD 4 []) = some tv →
      (mkLog timeParse atoi parseInt (clfMatch s)).timestamp = tv) ∧
    (timeParse ((clfMatch s).getD 4 []) = none →
      (mkLog timeParse atoi parseInt (clfMatch s)).timestamp = 0) := by
  refine ⟨(C6_malformed_skip clfMatch timeParse atoi parseInt).2.1 s rest h,
    ?_, ?_⟩
  · intro hp
    simp only [mkLog]
    rw [hp]
    rfl
  · intro hp
    simp only [mkLog]
    rw [hp]
    rfl

/-- C7 witness: with a match function whose date group parses to time 7
on line `"a"` and fails on line `"c"`, the produced records carry
timestamp 7 and the zero time respectively. -/
theorem C7_timestamp_default_witness :
    ((readLoop (fun _ => List.replicate 8 ['d'])
        (fun d => if d = ['d'] then some 7 else none)
        (fun _ => none) (fun _ => none) [ReadEvent.line ['a']]).recs =
      mkLog (fun d => if d = ['d'] then some 7 else none)
          (fun _ => none) (fun _ => none) (List.replicate 8 ['d']) ::
        (readLoop (fun _ => List.replicate 8 ['d'])
          (fun d => if d = ['d'] then some 7 else none)
          (fun _ => none) (fun _ => none) []).recs) ∧
    (mkLog (fun d => if d = ['d'] then some 7 else none)
        (fun _ => none) (fun _ => none)
        (List.replicate 8 ['d'])).timestamp = 7 ∧
    (mkLog (fun _ => (none : Option Int))
        (fun _ => none) (fun _ => none)
        (List.replicate 8 ['d'])).timestamp = 0 :=
  ⟨(C7_timestamp_default (fun _ => List.replicate 8 ['d'])
      (fun d => if d = ['d'] then some 7 else none)
      (fun _ => none) (fun _ => none) ['a'] [] 7 (by decide)).1,
    (C7_timestamp_default (fun _ => List.replicate 8 ['d'])
      (fun d => if d = ['d'] then some 7 else none)
      (fun _ => none) (fun _ => none) ['a'] [] 7 (by decide)).2.1
      (by decide),
    (C7_timestamp_default (fun _ => List.replicate 8 ['d'])
      (fun _ => none)
      (fun _ => none) (fun _ => none) ['a'] [] 7 (by decide)).2.2 rfl⟩

/-! ## Zero-timestamp records are invisible to the averager (C10) -/

/-- C10: a record whose timestamp is the zero-value time, processed at
any `now` with the zero time older than `now - window`, is counted in
the total hit count but leaves the averager untouched — it contributes
to neither `average()` nor `latest()`, and is therefore invisible to
alerting. -/
theorem C10_zero_timestamp (reqMatch : List Char → List (List Char))
    (l : LogRec) (now : Int) (st : collectorState)
    (hts : l.timestamp = 0)
    (hold : (st.averager.window : Int) < now) :
    (process reqMatch l now st).count = st.count + 1 ∧
    (process reqMatch l now st).averager = st.averager ∧
    average (process reqMatch l now st).averager = average st.averager ∧
    latest (process reqMatch l now st).averager = latest st.averager := by
  have hav : (process reqMatch l now st).averager = st.averager := by
    have hdrop : ingestHit l.timestamp now st.averager = st.averager := by
      rw [hts]
      unfold ingestHit
      rw [if_pos (by omega)]
    simp only [process, process.processStatus', processRequest, processIP,
      processSize]
    split <;> split <;> simp [hdrop]
  exact ⟨process_count reqMatch l now st, hav, by rw [hav], by rw [hav]⟩

/-- C10 witness: a zero-timestamp record processed at `now = 5` against
a 2 ns window is counted but leaves the averager untouched. -/
theorem C10_zero_timestamp_witness :
    (process (fun _ => []) ⟨[], [], [], 0, [], 200, 0⟩ 5
        collectorC4).count = collectorC4.count + 1 ∧
    (process (fun _ => []) ⟨[], [], [], 0, [], 200, 0⟩ 5
        collectorC4).averager = collectorC4.averager :=
  ⟨(C10_zero_timestamp (fun _ => []) ⟨[], [], [], 0, [], 200, 0⟩ 5
      collectorC4 rfl (by decide)).1,
    (C10_zero_timestamp (fun _ => []) ⟨[], [], [], 0, [], 200, 0⟩ 5
      collectorC4 rfl (by decide)).2.1⟩

/-! ## Averager: the average as a function of the populated slots (C2) -/

/-- The populated non-current slots of a bucket ring: position/value
pairs whose position differs from the cursor and whose slot holds a
counter. -/
def populatedSlots (bs : List (Option Nat)) (idx : Nat) :
    List (Nat × Option Nat) :=
  (List.enumFrom 0 bs).filter fun p => decide (p.1 ≠ idx) && p.2.isSome

/-- Sum of the counters of the populated non-current slots. -/
def popSum (w : windowedAverager) : Nat :=
  ((populatedSlots w.buckets w.idx).map fun p => p.2.getD 0).sum

/-- Number of populated non-current slots. -/
def popCount (w : windowedAverager) : Nat :=
  (populatedSlots w.buckets w.idx).length

/-- The loop of `average` computes exactly the sum and the count of the
populated slots other than the current one. -/
theorem sumCountAux_eq (idx : Nat) (bs : List (Option Nat)) :
    ∀ i, sumCountAux idx i bs =
      ((((List.enumFrom i bs).filter fun p =>
          decide (p.1 ≠ idx) && p.2.isSome).map fun p => p.2.getD 0).sum,
       ((List.enumFrom i bs).filter fun p =>
          decide (p.1 ≠ idx) && p.2.isSome).length) := by
  induction bs with
  | nil => intro i; rfl
  | cons b bs ih =>
    intro i
    have he : List.enumFrom i (b :: bs) =
        (i, b) :: List.enumFrom (i + 1) bs := rfl
    by_cases hi : i = idx
    · subst hi
      simp only [sumCountAux, he, List.filter_cons]
      simp [ih]
    · cases b with
      | none =>
        simp only [sumCountAux, he, List.filter_cons]
        simp [hi, ih]
      | some v =>
        simp only [sumCountAux, he, List.filter_cons]
        simp [hi, ih]
        omega

/-- `average` in terms of the populated-slot sum and count: the sum over
populated non-current slots divided by (count × quantum-in-seconds),
NaN (`none`) when the count is zero. -/
theorem average_eq_spec (u : windowedAverager) :
    average u = if popCount u = 0 then none
      else some ((popSum u : ℚ) / ((popCount u : ℚ) * quantumSeconds u)) := by
  unfold average popSum popCount populatedSlots
  rw [sumCountAux_eq]

/-! ## Averager dynamics for the full-window scenario (C2) -/

/-- Ingest a burst of events — (timestamp, receipt-time) pairs — within
one quantum: the `quantize` loop body applied to each in turn. -/
def ingestBlock (events : List (Int × Int)) (st : windowedAverager) :
    windowedAverager :=
  events.foldl (fun s e => ingestHit e.1 e.2 s) st

/-- Feed quantum-sized bursts of traffic, each completed by one `tick`
firing. -/
def feedWindow (blocks : List (List (Int × Int))) (st : windowedAverager) :
    windowedAverager :=
  blocks.foldl (fun s blk => tickStep (ingestBlock blk s)) st

/-- An in-window event lands in the current bucket, incrementing its
counter. -/
theorem ingestHit_fresh (hit now : Int) (st : windowedAverager) (c : Nat)
    (hin : ¬hit < now - (st.window : Int))
    (hslot : st.buckets.getD st.idx none = some c) :
    ingestHit hit now st =
      { st with buckets := st.buckets.set st.idx (some (c + 1)) } := by
  unfold ingestHit
  rw [if_neg hin, hslot]

/-- An in-window event landing in a nil bucket allocates it as a
populated 1. -/
theorem ingestHit_alloc (hit now : Int) (st : windowedAverager)
    (hin : ¬hit < now - (st.window : Int))
    (hslot : st.buckets.getD st.idx none = none) :
    ingestHit hit now st =
      { st with buckets := st.buckets.set st.idx (some 1) } := by
  unfold ingestHit
  rw [if_neg hin, hslot]

/-- A burst of in-window events on a populated current bucket adds its
size to the bucket's counter. -/
theorem ingestBlock_some :
    ∀ (events : List (Int × Int)) (st : windowedAverager) (c : Nat),
      st.idx < st.buckets.length →
      st.buckets.getD st.idx none = some c →
      (∀ e ∈ events, ¬e.1 < e.2 - (st.window : Int)) →
      ingestBlock events st =
        { st with buckets :=
            st.buckets.set st.idx (some (c + events.length)) }
  | [], st, c, _, hslot, _ => by
    show st = { st with buckets := st.buckets.set st.idx (some (c + 0)) }
    rw [Nat.add_zero, set_getD_self st.buckets st.idx c hslot]
  | e :: events, st, c, hlt, hslot, hin => by
    have hstep := ingestHit_fresh e.1 e.2 st c
      (hin e (List.mem_cons_self _ _)) hslot
    have hrec := ingestBlock_some events
      { st with buckets := st.buckets.set st.idx (some (c + 1)) } (c + 1)
      (by simpa using hlt)
      (by simpa using getD_set_self st.buckets st.idx (some (c + 1)) hlt)
      (fun x hx => hin x (List.mem_cons_of_mem _ hx))
    show ingestBlock events (ingestHit e.1 e.2 st) = _
    rw [hstep, hrec]
    simp only [List.set_set, List.length_cons]
    have : c + 1 + events.length = c + (events.length + 1) := by omega
    rw [this]

/-- A nonempty burst of in-window events on a nil current bucket leaves
it populated with the burst size. -/
theorem ingestBlock_alloc (e : Int × Int) (events : List (Int × Int))
    (st : windowedAverager)
    (hlt : st.idx < st.buckets.length)
    (hslot : st.buckets.getD st.idx none = none)
    (hin : ∀ x ∈ e :: events, ¬x.1 < x.2 - (st.window : Int)) :
    ingestBlock (e :: events) st =
      { st with buckets :=
          st.buckets.set st.idx (some (events.length + 1)) } := by
  have hstep := ingestHit_alloc e.1 e.2 st
    (hin e (List.mem_cons_self _ _)) hslot
  have hrec := ingestBlock_some events
    { st with buckets := st.buckets.set st.idx (some 1) } 1
    (by simpa using hlt)
    (by simpa using getD_set_self st.buckets st.idx (some 1) hlt)
    (fun x hx => hin x (List.mem_cons_of_mem _ hx))
  show ingestBlock events (ingestHit e.1 e.2 st) = _
  rw [hstep, hrec]
  simp only [List.set_set]
  have : 1 + events.length = events.length + 1 := by omega
  rw [this]

/-- One quantum of the scenario: a nonempty in-window burst lands in the
current (populated-zero) bucket, and the closing tick archives it and
opens a fresh zero bucket. -/
theorem feedOne_shape (q win : Nat) (pre : List Nat) (n : Nat)
    (e : Int × Int) (es : List (Int × Int))
    (hin : ∀ x ∈ e :: es, ¬x.1 < x.2 - (win : Int)) :
    tickStep (ingestBlock (e :: es)
      ⟨pre.map some ++ some 0 :: List.replicate (n + 1) none, q, win,
        pre.length⟩) =
    ⟨(pre ++ [es.length + 1]).map some ++ some 0 :: List.replicate n none,
      q, win, pre.length + 1⟩ := by
  have hlt : pre.length <
      (pre.map some ++ some 0 :: List.replicate (n + 1) none).length := by
    simp
  have hgetD : (pre.map some ++ some 0 ::
      List.replicate (n + 1) none).getD pre.length none = some 0 := by
    have h := getD_append_length (pre.map some) (some 0)
      (List.replicate (n + 1) none) none
    simpa using h
  have hib := ingestBlock_some (e :: es)
    ⟨pre.map some ++ some 0 :: List.replicate (n + 1) none, q, win,
      pre.length⟩ 0 hlt hgetD hin
  rw [hib]
  have hset1 : (pre.map some ++ some 0 ::
      List.replicate (n + 1) none).set pre.length
        (some (0 + (e :: es).length)) =
      pre.map some ++ some (es.length + 1) ::
        List.replicate (n + 1) none := by
    have h := set_append_length (pre.map some) (some 0)
      (some (0 + (e :: es).length)) (List.replicate (n + 1) none)
    simpa using h
  show tickStep ⟨(pre.map some ++ some 0 ::
      List.replicate (n + 1) none).set pre.length
        (some (0 + (e :: es).length)), q, win, pre.length⟩ = _
  rw [hset1]
  unfold tickStep
  have hlen : (pre.map some ++ some (es.length + 1) ::
      List.replicate (n + 1) none).length = pre.length + n + 2 := by
    simp
    omega
  have hmod : (pre.length + 1) % (pre.map some ++ some (es.length + 1) ::
      List.replicate (n + 1) none).length = pre.length + 1 := by
    rw [hlen]
    exact Nat.mod_eq_of_lt (by omega)
  have hset2 : (pre.map some ++ some (es.length + 1) ::
        List.replicate (n + 1) none).set (pre.length + 1) (some 0) =
      (pre ++ [es.length + 1]).map some ++ some 0 ::
        List.replicate n none := by
    have hview : pre.map some ++ some (es.length + 1) ::
        List.replicate (n + 1) none =
        (pre.map some ++ [some (es.length + 1)]) ++
          none :: List.replicate n none := by
      simp [List.replicate_succ]
    rw [hview]
    have h := set_append_length (pre.map some ++ [some (es.length + 1)])
      none (some 0) (List.replicate n none)
    have hlen2 : (pre.map some ++ [some (es.length + 1)]).length =
        pre.length + 1 := by simp
    rw [hlen2] at h
    rw [h]
    simp
  simp only [hmod, hset2]

/-- Invariant of the scenario fold: starting just after a tick with the
already-observed quanta `pre` archived and a fresh zero current bucket,
feeding the remaining nonempty in-window bursts archives one count per
burst and leaves the cursor on the trailing zero bucket. -/
theorem feedWindow_inv (q win : Nat) :
    ∀ (blocks : List (List (Int × Int))) (pre : List Nat),
      (∀ blk ∈ blocks, blk ≠ []) →
      (∀ blk ∈ blocks, ∀ x ∈ blk, ¬x.1 < x.2 - (win : Int)) →
      feedWindow blocks
        ⟨pre.map some ++ some 0 :: List.replicate blocks.length none, q,
          win, pre.length⟩ =
        ⟨(pre ++ blocks.map List.length).map some ++ [some 0], q, win,
          pre.length + blocks.length⟩ := by
  intro blocks
  induction blocks with
  | nil =>
    intro pre _ _
    simp [feedWindow]
  | cons blk blocks ih =>
    intro pre hne hin
    rcases blk with _ | ⟨e, es⟩
    · exact absurd rfl (hne [] (List.mem_cons_self _ _))
    · have hfeed : feedWindow ((e :: es) :: blocks)
          ⟨pre.map some ++ some 0 ::
            List.replicate ((e :: es) :: blocks).length none, q, win,
            pre.length⟩ =
          feedWindow blocks (tickStep (ingestBlock (e :: es)
            ⟨pre.map some ++ some 0 ::
              List.replicate (blocks.length + 1) none, q, win,
              pre.length⟩)) := rfl
      rw [hfeed, feedOne_shape q win pre blocks.length e es
        (hin (e :: es) (List.mem_cons_self _ _))]
      have hpre1 : (pre ++ [es.length + 1]).length = pre.length + 1 := by
        simp
      have hih := ih (pre ++ [es.length + 1])
        (fun b hb => hne b (List.mem_cons_of_mem _ hb))
        (fun b hb => hin b (List.mem_cons_of_mem _ hb))
      rw [hpre1] at hih
      rw [hih]
      have h1 : (pre ++ [es.length + 1]) ++ blocks.map List.length =
          pre ++ ((e :: es) :: blocks).map List.length := by
        simp
      rw [h1]
      have h2 : pre.length + 1 + blocks.length =
          pre.length + ((e :: es) :: blocks).length := by
        simp only [List.length_cons]
        omega
      rw [h2]

/-- The sum/count loop over a ring of `xs.length` archived counters plus
the trailing current zero bucket (cursor on the latter) totals `xs.sum`
over `xs.length` populated slots. -/
theorem sumCount_final :
    ∀ (xs : List Nat) (i : Nat),
      sumCountAux (i + xs.length) i (xs.map some ++ [some 0]) =
        (xs.sum, xs.length) := by
  intro xs
  induction xs with
  | nil =>
    intro i
    simp [sumCountAux]
  | cons x xs ih =>
    intro i
    have hne : ¬i = i + (x :: xs).length := by
      simp
    simp only [List.map_cons, List.cons_append, sumCountAux, if_neg hne]
    have harith : i + (x :: xs).length = (i + 1) + xs.length := by
      simp only [List.length_cons]
      omega
    simp only [List.append_eq]
    rw [harith, ih (i + 1)]
    simp only [Prod.mk.injEq, List.sum_cons, List.length_cons]
    exact ⟨by omega, trivial⟩

/-- `tickStep` on an explicit state. -/
theorem tickStep_mk (bs : List (Option Nat)) (q win i : Nat) :
    tickStep ⟨bs, q, win, i⟩ =
      ⟨bs.set ((i + 1) % bs.length) (some 0), q, win,
        (i + 1) % bs.length⟩ := rfl

/-- `average` on an explicit state. -/
theorem average_mk (bs : List (Option Nat)) (q win i : Nat) :
    average ⟨bs, q, win, i⟩ =
      if (sumCountAux i 0 bs).2 = 0 then none
      else some (((sumCountAux i 0 bs).1 : ℚ) /
        (((sumCountAux i 0 bs).2 : ℚ) * ((q : ℚ) / 1000000000))) := rfl

/-- The very first quantum of the scenario: the burst lands in the
initial nil bucket (allocating it), and the closing tick archives it. -/
theorem feedFirst_shape (q win m : Nat) (e : Int × Int)
    (es : List (Int × Int))
    (hin : ∀ x ∈ e :: es, ¬x.1 < x.2 - (win : Int)) :
    tickStep (ingestBlock (e :: es)
      ⟨List.replicate (m + 2) none, q, win, 0⟩) =
    ⟨some (es.length + 1) :: some 0 :: List.replicate m none, q, win,
      1⟩ := by
  have hib := ingestBlock_alloc e es
    ⟨List.replicate (m + 2) none, q, win, 0⟩ (by simp) rfl hin
  rw [hib]
  show tickStep ⟨(List.replicate (m + 2) none).set 0
      (some (es.length + 1)), q, win, 0⟩ = _
  have hset1 : (List.replicate (m + 2) (none : Option Nat)).set 0
      (some (es.length + 1)) =
      some (es.length + 1) :: List.replicate (m + 1) none := rfl
  rw [hset1, tickStep_mk]
  have hlen : (some (es.length + 1) ::
      List.replicate (m + 1) (none : Option Nat)).length = m + 2 := by
    simp
  have hmod : (0 + 1) % (some (es.length + 1) ::
      List.replicate (m + 1) (none : Option Nat)).length = 1 := by
    rw [hlen]
    exact Nat.mod_eq_of_lt (by omega)
  rw [hmod]
  have hset2 : (some (es.length + 1) ::
      List.replicate (m + 1) (none : Option Nat)).set 1 (some 0) =
      some (es.length + 1) :: some 0 :: List.replicate m none := rfl
  rw [hset2]

/-- C2: `average()` is the populated-slot sum over
(populated-slot-count × quantum-in-seconds), undefined (NaN, `none`)
when no slot besides the current one is populated; and feeding `k`
events spread over a fully observed window of `w` quanta (each quantum
seeing at least one in-window event, then a tick) yields
`k / (w × quantumSeconds)`. -/
theorem C2_average_full_window (window quantum w : Nat)
    (blocks : List (List (Int × Int))) (st₀ : windowedAverager) :
    (∀ u : windowedAverager, average u =
      if popCount u = 0 then none
      else some ((popSum u : ℚ) /
        ((popCount u : ℚ) * quantumSeconds u))) ∧
    (∀ u : windowedAverager, popCount u = 0 → average u = none) ∧
    (0 < quantum → window = w * quantum →
      newWindowedAverager window quantum = some st₀ →
      (∀ blk ∈ blocks, blk ≠ []) →
      (∀ blk ∈ blocks, ∀ x ∈ blk, ¬x.1 < x.2 - (window : Int)) →
      blocks.length = w →
      average (feedWindow blocks st₀) =
        some (((blocks.map List.length).sum : ℚ) /
          ((w : ℚ) * ((quantum : ℚ) / 1000000000)))) := by
  refine ⟨fun u => average_eq_spec u,
    fun u h => by rw [average_eq_spec u, if_pos h], ?_⟩
  intro hq hw hnew hne hin hlen
  have hw1 : 1 ≤ w := by
    by_contra hc
    have hw0 : w = 0 := by omega
    have hwin0 : window = 0 := by
      rw [hw, hw0]
      simp
    rw [hwin0] at hnew
    unfold newWindowedAverager at hnew
    rw [if_pos hq] at hnew
    exact Option.noConfusion hnew
  have hqle : quantum ≤ window := by
    rw [hw]
    calc quantum = 1 * quantum := by omega
    _ ≤ w * quantum := Nat.mul_le_mul_right quantum hw1
  have hdiv : window / quantum = w := by
    rw [hw]
    exact Nat.mul_div_cancel w hq
  have hst : st₀ = ⟨List.replicate (w + 1) none, quantum, window, 0⟩ := by
    unfold newWindowedAverager at hnew
    rw [if_neg (by omega : ¬window < quantum)] at hnew
    rw [hdiv] at hnew
    injection hnew with h
    exact h.symm
  subst hst
  rcases blocks with _ | ⟨blk, blocks'⟩
  · rw [List.length_nil] at hlen
    omega
  rcases blk with _ | ⟨e, es⟩
  · exact absurd rfl (hne [] (List.mem_cons_self _ _))
  have hwl : w = blocks'.length + 1 := by
    rw [← hlen]
    simp
  subst hwl
  have hr : List.replicate (blocks'.length + 1 + 1) (none : Option Nat) =
      List.replicate (blocks'.length + 2) none := rfl
  have hfeed : feedWindow ((e :: es) :: blocks')
      ⟨List.replicate (blocks'.length + 1 + 1) none, quantum, window, 0⟩ =
      feedWindow blocks' (tickStep (ingestBlock (e :: es)
        ⟨List.replicate (blocks'.length + 2) none, quantum, window,
          0⟩)) := by
    rw [hr]
    rfl
  rw [hfeed, feedFirst_shape quantum window blocks'.length e es
    (hin _ (List.mem_cons_self _ _))]
  have hinv := feedWindow_inv quantum window blocks' [es.length + 1]
    (fun b hb => hne b (List.mem_cons_of_mem _ hb))
    (fun b hb => hin b (List.mem_cons_of_mem _ hb))
  have hshape : (([es.length + 1].map some ++ some 0 ::
      List.replicate blocks'.length (none : Option Nat))) =
      some (es.length + 1) :: some 0 ::
        List.replicate blocks'.length none := rfl
  have hplen : ([es.length + 1] : List Nat).length = 1 := rfl
  rw [hshape, hplen] at hinv
  rw [hinv]
  have hxs : ([es.length + 1] ++ blocks'.map List.length) =
      ((e :: es) :: blocks').map List.length := by
    simp
  rw [hxs]
  have hklen : (((e :: es) :: blocks').map List.length).length =
      blocks'.length + 1 := by
    simp
  have hidx : 1 + blocks'.length =
      0 + (((e :: es) :: blocks').map List.length).length := by
    rw [hklen]
    omega
  rw [hidx, average_mk,
    sumCount_final (((e :: es) :: blocks').map List.length) 0]
  have hne0 : ¬((((e :: es) :: blocks').map List.length).sum,
      (((e :: es) :: blocks').map List.length).length).2 = 0 := by
    simp
  rw [if_neg hne0]
  simp [hklen]

/-- C2 witness: a quantum of 1 ns and window of 2 ns (`w = 2`), with a
1-event burst then a 2-event burst, average `3 / (2 × 1e-9)`; the fresh
averager (no populated slot besides the current) averages to NaN. -/
theorem C2_average_full_window_witness :
    average (feedWindow [[((0 : Int), (0 : Int))], [(0, 0), (0, 0)]]
        ⟨[none, none, none], 1, 2, 0⟩) =
      some ((((([[((0 : Int), (0 : Int))], [(0, 0), (0, 0)]].map
          List.length).sum : Nat) : ℚ)) /
        (((2 : Nat) : ℚ) * (((1 : Nat) : ℚ) / 1000000000))) ∧
    average ⟨[none, none, none], 1, 2, 0⟩ = none :=
  ⟨(C2_average_full_window 2 1 2 [[(0, 0)], [(0, 0), (0, 0)]]
      ⟨[none, none, none], 1, 2, 0⟩).2.2 (by decide) (by decide)
      (by decide) (by decide) (by decide) (by decide),
    (C2_average_full_window 2 1 2 [[(0, 0)], [(0, 0), (0, 0)]]
      ⟨[none, none, none], 1, 2, 0⟩).2.1 ⟨[none, none, none], 1, 2, 0⟩
      (by decide)⟩

end HttpMonitor
